import Mathlib

/-!
Shallow embedding of the weighted-aggregation and derived-variable core of
the ECP survey app (src/src/app.py).  Cell values are rationals (numeric
codes) or strings (categorical labels); a missing cell (pandas NaN) is
`none`.  The distinguished WEIGHT column is modelled as a dedicated field
of each record, matching the data-model invariant that every record has a
defined sampling weight.
-/

namespace ECP

/-- A cell value: a numeric survey code or a categorical label. -/
inductive Value where
  | num (q : Rat)
  | cat (s : String)
deriving DecidableEq, Repr

/-- One survey record: its sampling weight and its cells, addressed by
column name; `none` is a missing value (NaN). -/
structure Record where
  weight : Rat
  cells : String → Option Value

/-- An in-memory survey table: ordered column names and records. -/
structure SurveyTable where
  columns : List String
  rows : List Record

/-- Sum of the WEIGHT column over the whole table (`df["WEIGHT"].sum()`). -/
def totalWeight (df : SurveyTable) : Rat :=
  (df.rows.map Record.weight).sum

/-- Pandas `df.loc[df[var] == valor_si, "WEIGHT"].sum()`: summed weight of the
records whose cell at `var` equals the numeric code `valor_si`.  A missing
cell or a categorical cell never equals a numeric code, as in pandas. -/
def yesWeight (df : SurveyTable) (var : String) (valor_si : Rat) : Rat :=
  ((df.rows.filter fun r => r.cells var = some (Value.num valor_si)).map Record.weight).sum

/-- app.py lines 26-32, `porcentaje_ponderado`: weighted percentage of
records where `var == valor_si`; 0 when the column is absent, 0 when the
total weight is zero (Python truthiness guard `if total_weight else 0.0`). -/
def porcentaje_ponderado (df : SurveyTable) (var : String) (valor_si : Rat := 1) : Rat :=
  if var ∉ df.columns then 0
  else
    let yes_weight := yesWeight df var valor_si
    let total_weight := totalWeight df
    if total_weight = 0 then 0 else 100 * yes_weight / total_weight

/-- Pandas `Series.between(lo, hi)`: inclusive on both ends, false on a missing
value and on a non-numeric value. -/
def betweenB (v : Option Value) (lo hi : Rat) : Bool :=
  match v with
  | some (Value.num q) => decide (lo ≤ q) && decide (q ≤ hi)
  | _ => false

/-- Numeric content of a cell, 0 otherwise (only read under a `betweenB`
filter, which guarantees a numeric cell). -/
def numOrZero : Option Value → Rat
  | some (Value.num q) => q
  | _ => 0

/-- app.py lines 34-49, `weighted_mean`: weighted mean of `df[var]`
restricted to the records with value between 1 and 5; 0 when the column is
absent or the restricted weight sum is zero. -/
def weighted_mean (df : SurveyTable) (var : String) : Rat :=
  if var ∉ df.columns then 0
  else
    let valid := df.rows.filter fun r => betweenB (r.cells var) 1 5
    let w := (valid.map Record.weight).sum
    if w = 0 then 0
    else ((valid.map fun r => numOrZero (r.cells var) * r.weight).sum) / w

/-- The distinct non-missing values of `df[var]`: the keys of
`df.groupby(var)` (groupby drops NaN keys; it also sorts the keys, an
ordering that no stated property depends on, so the dedup order is kept). -/
def presentValues (df : SurveyTable) (var : String) : List Value :=
  (df.rows.filterMap fun r => r.cells var).dedup

/-- Summed WEIGHT of the records whose cell at `var` equals `c`: one entry
of `df.groupby(var)["WEIGHT"].sum()`. -/
def groupWeight (df : SurveyTable) (var : String) (c : Value) : Rat :=
  ((df.rows.filter fun r => r.cells var = some c).map Record.weight).sum

/-- app.py line 242, `total = weights.sum()`: the denominator of
`plot_weighted_bar`, i.e. the sum of the per-group weights (NOT the whole
table weight: records with a missing value at `var` are not in any group). -/
def wbTotal (df : SurveyTable) (var : String) : Rat :=
  ((presentValues df var).map (groupWeight df var)).sum

/-- Floating-point division as performed by pandas: `none` models the
non-finite float (NaN or inf) produced when the divisor is zero; pandas
does not raise on it. -/
def floatDiv (a b : Rat) : Option Rat :=
  if b = 0 then none else some (a / b)

/-- app.py lines 240-248, numeric core of `plot_weighted_bar`: one entry
per present raw value, carrying its mapped label (`none` when the code has
no entry in `labels`) and its percentage `weights / total * 100` (`none`
models the NaN produced when the total is zero). -/
def plot_weighted_bar (df : SurveyTable) (var : String) (labels : Value → Option String) :
    List (Option String × Option Rat) :=
  (presentValues df var).map fun c =>
    (labels c, (floatDiv (groupWeight df var c) (wbTotal df var)).map fun q => q * 100)

/-- Pandas `df.loc[df[code] == 1, "WEIGHT"].sum()` for one indicator column. -/
def indWeight (df : SurveyTable) (code : String) : Rat :=
  yesWeight df code 1

/-- app.py lines 270-276, numerator and percentage of one group of
`plot_grouped_reasons`: the SUM over the member codes present in the table
of each indicator weight, over the whole-table weight (0 when that total
is zero, per the `if total else 0` guard). -/
def groupedPct (df : SurveyTable) (codes : List String) : Rat :=
  let total := totalWeight df
  let w := ((codes.filter fun c => c ∈ df.columns).map (indWeight df)).sum
  if total = 0 then 0 else 100 * w / total

/-- app.py lines 267-297, numeric core of `plot_grouped_reasons`: one
(label, percentage) pair per group of the group spec. -/
def plot_grouped_reasons (df : SurveyTable) (group_map : List (String × List String)) :
    List (String × Rat) :=
  group_map.map fun p => (p.1, groupedPct df p.2)

/-- app.py lines 87-91, `pd.cut(df["P5328"], bins=[0, 3.5, 6.5, 10],
labels=["Izquierda", "Centro", "Derecha"])`: right-closed bins
(0, 3.5], (3.5, 6.5], (6.5, 10]; values outside them, missing values and
non-numeric values map to NaN. -/
def cutIdeology : Option Value → Option Value
  | some (Value.num q) =>
      if 0 < q ∧ q ≤ 3.5 then some (Value.cat "Izquierda")
      else if 3.5 < q ∧ q ≤ 6.5 then some (Value.cat "Centro")
      else if 6.5 < q ∧ q ≤ 10 then some (Value.cat "Derecha")
      else none
  | _ => none

/-- app.py lines 94-96, `df["P5328"].where(df["P5328"].between(1, 10))`:
the placement value when it lies in [1, 10], NaN otherwise. -/
def scoreClean : Option Value → Option Value
  | some (Value.num q) => if 1 ≤ q ∧ q ≤ 10 then some (Value.num q) else none
  | _ => none

/-- Pandas column assignment on the column list: an existing column keeps
its position, a new one is appended. -/
def addCol (cols : List String) (name : String) : List String :=
  if name ∈ cols then cols else cols ++ [name]

/-- The per-record effect of the two column assignments of
`engineer_ideology`: both derived cells are computed from the original
P5328 cell of the record. -/
def deriveRow (r : Record) : Record :=
  { r with cells := fun c =>
      if c = "ideology_group" then cutIdeology (r.cells "P5328")
      else if c = "ideology_score" then scoreClean (r.cells "P5328")
      else r.cells c }

/-- app.py lines 81-98, `engineer_ideology`: on `df.copy()`, when P5328 is
present, assigns `ideology_group` and `ideology_score` from P5328 and
returns the new table; otherwise returns the table unchanged.  (The local
`w = df.loc[mask, "WEIGHT"]` at line 95 is dead and has no effect.) -/
def engineer_ideology (df : SurveyTable) : SurveyTable :=
  if "P5328" ∈ df.columns then
    { columns := addCol (addCol df.columns "ideology_group") "ideology_score",
      rows := df.rows.map deriveRow }
  else df

/-- A record with one populated cell. -/
def mkRow (w : Rat) (var : String) (v : Value) : Record :=
  { weight := w, cells := fun c => if c = var then some v else none }

/-- A record with all cells missing. -/
def mkEmptyRow (w : Rat) : Record :=
  { weight := w, cells := fun _ => none }

/-! ### List-sum helper lemmas -/

theorem sum_map_add {α : Type} (l : List α) (f g : α → Rat) :
    (l.map fun x => f x + g x).sum = (l.map f).sum + (l.map g).sum := by
  induction l with
  | nil => simp
  | cons a t ih => simp [ih]; ring

theorem sum_filter_eq_sum_ite {α : Type} (l : List α) (p : α → Bool) (f : α → Rat) :
    ((l.filter p).map f).sum = (l.map fun x => if p x then f x else 0).sum := by
  induction l with
  | nil => rfl
  | cons a t ih => by_cases h : p a <;> simp [List.filter_cons, h, ih]

theorem map_congr_mem {α β : Type} {l : List α} {f g : α → β} (h : ∀ a ∈ l, f a = g a) :
    l.map f = l.map g := by
  induction l with
  | nil => rfl
  | cons a t ih =>
      simp [h a (List.mem_cons_self a t), ih fun x hx => h x (List.mem_cons_of_mem a hx)]

theorem sum_map_mul_right {α : Type} (l : List α) (f : α → Rat) (k : Rat) :
    (l.map fun x => f x * k).sum = (l.map f).sum * k := by
  induction l with
  | nil => simp
  | cons a t ih => simp [ih]; ring

theorem sum_map_nonneg {α : Type} {l : List α} {f : α → Rat} (h : ∀ a ∈ l, 0 ≤ f a) :
    0 ≤ (l.map f).sum := by
  induction l with
  | nil => simp
  | cons a t ih =>
      simp only [List.map_cons, List.sum_cons]
      have := h a (List.mem_cons_self a t)
      have := ih fun x hx => h x (List.mem_cons_of_mem a hx)
      linarith

theorem sum_filter_le_sum {α : Type} {l : List α} (p : α → Bool) {f : α → Rat}
    (h : ∀ a ∈ l, 0 ≤ f a) :
    ((l.filter p).map f).sum ≤ (l.map f).sum := by
  induction l with
  | nil => simp
  | cons a t ih =>
      have ha := h a (List.mem_cons_self a t)
      have iht := ih fun x hx => h x (List.mem_cons_of_mem a hx)
      have hnn : 0 ≤ (t.map f).sum := sum_map_nonneg fun x hx => h x (List.mem_cons_of_mem a hx)
      by_cases hp : p a <;> simp [List.filter_cons, hp] <;> linarith

theorem sum_le_sum_map {α : Type} {l : List α} {f g : α → Rat}
    (h : ∀ a ∈ l, f a ≤ g a) :
    (l.map f).sum ≤ (l.map g).sum := by
  induction l with
  | nil => simp
  | cons a t ih =>
      have := h a (List.mem_cons_self a t)
      have := ih fun x hx => h x (List.mem_cons_of_mem a hx)
      simp only [List.map_cons, List.sum_cons]
      linarith

theorem mem_le_sum_map {α : Type} {l : List α} {f : α → Rat} (h : ∀ a ∈ l, 0 ≤ f a)
    {a : α} (ha : a ∈ l) : f a ≤ (l.map f).sum := by
  induction l with
  | nil => cases ha
  | cons b t ih =>
      rcases List.mem_cons.mp ha with rfl | hmem
      · have : 0 ≤ (t.map f).sum := sum_map_nonneg fun x hx => h x (List.mem_cons_of_mem a hx)
        simp only [List.map_cons, List.sum_cons]; linarith
      · have hb := h b (List.mem_cons_self b t)
        have := ih (fun x hx => h x (List.mem_cons_of_mem b hx)) hmem
        simp only [List.map_cons, List.sum_cons]; linarith

theorem countP_eq_one_of_nodup {β : Type} [DecidableEq β] {cs : List β} (h : cs.Nodup)
    {v : β} (hv : v ∈ cs) :
    (cs.countP fun c => decide (v = c)) = 1 := by
  induction cs with
  | nil => cases hv
  | cons c t ih =>
      rcases List.nodup_cons.mp h with ⟨hc, ht⟩
      rcases List.mem_cons.mp hv with rfl | hmem
      · have h0 : (t.countP fun x => decide (v = x)) = 0 := by
          rw [List.countP_eq_zero]
          intro a ha
          simp only [decide_eq_true_eq]
          exact fun he => hc (he ▸ ha)
        simp [List.countP_cons, h0]
      · have hne : c ≠ v := fun he => hc (he ▸ hmem)
        have := ih ht hmem
        simp [List.countP_cons, this, Ne.symm hne]

/-- Exchanging a sum over a list of keys of per-key filtered weight sums
for a sum over the rows, each row weighted by the number of keys whose
predicate it satisfies. -/
theorem sum_sum_swap {α β : Type} (rows : List α) (w : α → Rat) (cs : List β)
    (p : β → α → Bool) :
    (cs.map fun c => ((rows.filter (p c)).map w).sum).sum
      = (rows.map fun r => w r * ((cs.countP fun c => p c r : Nat) : Rat)).sum := by
  induction cs with
  | nil => simp
  | cons c t ih =>
      have h2 : (rows.map fun r => w r * (((c :: t).countP fun c0 => p c0 r : Nat) : Rat))
          = rows.map fun r =>
              (if p c r then w r else 0) + w r * ((t.countP fun c0 => p c0 r : Nat) : Rat) := by
        apply map_congr_mem
        intro r _
        rw [List.countP_cons]
        push_cast
        by_cases h : p c r
        · simp [h]; ring
        · simp [h]
      rw [List.map_cons, List.sum_cons, ih, h2, sum_map_add, sum_filter_eq_sum_ite]

/-! ### Structural lemmas about the derived-variable transform -/

theorem recordExt {a b : Record} (hw : a.weight = b.weight)
    (hc : ∀ c, a.cells c = b.cells c) : a = b := by
  cases a; cases b
  simp only at hw
  cases hw
  have : ∀ {f g : String → Option Value}, (∀ c, f c = g c) → f = g := fun h => funext h
  simp only [Record.mk.injEq, true_and]
  exact funext hc

theorem tableExt {a b : SurveyTable} (hc : a.columns = b.columns)
    (hr : a.rows = b.rows) : a = b := by
  cases a; cases b
  simp only at hc hr
  cases hc; cases hr
  rfl

theorem mem_addCol_self (cols : List String) (n : String) : n ∈ addCol cols n := by
  by_cases h : n ∈ cols <;> simp [addCol, h]

theorem mem_addCol_of_mem {cols : List String} {c : String} (h : c ∈ cols) (n : String) :
    c ∈ addCol cols n := by
  by_cases hn : n ∈ cols <;> simp [addCol, hn, h]

theorem addCol_eq_of_mem {cols : List String} {n : String} (h : n ∈ cols) :
    addCol cols n = cols := by
  simp [addCol, h]

theorem mem_addCol_iff {cols : List String} {n c : String} :
    c ∈ addCol cols n ↔ c ∈ cols ∨ c = n := by
  by_cases h : n ∈ cols
  · simp only [addCol_eq_of_mem h]
    constructor
    · exact Or.inl
    · rintro (hc | rfl)
      · exact hc
      · exact h
  · simp [addCol, h]

theorem deriveRow_weight (r : Record) : (deriveRow r).weight = r.weight := rfl

theorem deriveRow_cells_other (r : Record) {c : String} (h1 : c ≠ "ideology_group")
    (h2 : c ≠ "ideology_score") : (deriveRow r).cells c = r.cells c := by
  simp [deriveRow, h1, h2]

theorem deriveRow_cells_P5328 (r : Record) :
    (deriveRow r).cells "P5328" = r.cells "P5328" := by
  simp [deriveRow]

theorem deriveRow_cells_group (r : Record) :
    (deriveRow r).cells "ideology_group" = cutIdeology (r.cells "P5328") := by
  simp [deriveRow]

theorem deriveRow_cells_score (r : Record) :
    (deriveRow r).cells "ideology_score" = scoreClean (r.cells "P5328") := by
  simp [deriveRow]

theorem engineer_ideology_of_mem {df : SurveyTable} (h : "P5328" ∈ df.columns) :
    engineer_ideology df =
      { columns := addCol (addCol df.columns "ideology_group") "ideology_score",
        rows := df.rows.map deriveRow } := by
  simp only [engineer_ideology, if_pos h]

theorem engineer_ideology_of_not_mem {df : SurveyTable} (h : "P5328" ∉ df.columns) :
    engineer_ideology df = df := by
  simp only [engineer_ideology, if_neg h]

theorem deriveRow_idem (r : Record) : deriveRow (deriveRow r) = deriveRow r := by
  apply recordExt
  · rfl
  intro c
  by_cases h1 : c = "ideology_group"
  · subst h1
    rw [deriveRow_cells_group, deriveRow_cells_group, deriveRow_cells_P5328]
  · by_cases h2 : c = "ideology_score"
    · subst h2
      rw [deriveRow_cells_score, deriveRow_cells_score, deriveRow_cells_P5328]
    · rw [deriveRow_cells_other _ h1 h2]

/-- C9 -- The ideology derivation is idempotent: applying
`engineer_ideology` twice to any table yields exactly the same table (in
particular the same two derived columns) as applying it once, because both
derived columns are recomputed from the untouched P5328 column. -/
theorem engineer_ideology_idempotent (df : SurveyTable) :
    engineer_ideology (engineer_ideology df) = engineer_ideology df := by
  by_cases h : "P5328" ∈ df.columns
  · have h1 : "P5328" ∈ (engineer_ideology df).columns := by
      rw [engineer_ideology_of_mem h]
      exact mem_addCol_of_mem (mem_addCol_of_mem h _) _
    rw [engineer_ideology_of_mem h1, engineer_ideology_of_mem h]
    apply tableExt
    · show addCol (addCol (addCol (addCol df.columns "ideology_group") "ideology_score")
          "ideology_group") "ideology_score"
        = addCol (addCol df.columns "ideology_group") "ideology_score"
      have hgX : "ideology_group" ∈ addCol (addCol df.columns "ideology_group") "ideology_score" :=
        mem_addCol_of_mem (mem_addCol_self _ _) _
      have hsX : "ideology_score" ∈ addCol (addCol df.columns "ideology_group") "ideology_score" :=
        mem_addCol_self _ _
      rw [addCol_eq_of_mem hgX, addCol_eq_of_mem hsX]
    · show (df.rows.map deriveRow).map deriveRow = df.rows.map deriveRow
      rw [List.map_map]
      apply map_congr_mem
      intro r _
      exact deriveRow_idem r
  · simp only [engineer_ideology_of_not_mem h]

/-- C10 -- `engineer_ideology` is pure (it returns a fresh table built
from the input and cannot mutate it): when P5328 is absent the result IS
the input table; otherwise the result agrees with the input on every
column other than the two derived names, keeps every weight, and its
column list is the input list extended by at most the two derived names. -/
theorem engineer_ideology_frame (df : SurveyTable) :
    ("P5328" ∉ df.columns → engineer_ideology df = df)
    ∧ (∀ c, c ≠ "ideology_group" → c ≠ "ideology_score" →
        ((engineer_ideology df).rows.map fun r => r.cells c)
          = df.rows.map fun r => r.cells c)
    ∧ ((engineer_ideology df).rows.map Record.weight = df.rows.map Record.weight)
    ∧ (∀ c, c ∈ (engineer_ideology df).columns ↔
        c ∈ df.columns ∨ ("P5328" ∈ df.columns ∧ (c = "ideology_group" ∨ c = "ideology_score"))) := by
  refine ⟨fun h => engineer_ideology_of_not_mem h, ?_, ?_, ?_⟩
  · intro c h1 h2
    by_cases h : "P5328" ∈ df.columns
    · rw [engineer_ideology_of_mem h]
      show (df.rows.map deriveRow).map (fun r => r.cells c) = _
      rw [List.map_map]
      apply map_congr_mem
      intro r _
      exact deriveRow_cells_other r h1 h2
    · rw [engineer_ideology_of_not_mem h]
  · by_cases h : "P5328" ∈ df.columns
    · rw [engineer_ideology_of_mem h]
      show (df.rows.map deriveRow).map Record.weight = _
      rw [List.map_map]
      apply map_congr_mem
      intro r _
      exact deriveRow_weight r
    · rw [engineer_ideology_of_not_mem h]
  · intro c
    by_cases h : "P5328" ∈ df.columns
    · rw [engineer_ideology_of_mem h]
      show c ∈ addCol (addCol df.columns "ideology_group") "ideology_score" ↔ _
      simp only [mem_addCol_iff]
      constructor
      · rintro ((hc | rfl) | rfl)
        · exact Or.inl hc
        · exact Or.inr ⟨h, Or.inl rfl⟩
        · exact Or.inr ⟨h, Or.inr rfl⟩
      · rintro (hc | ⟨-, rfl | rfl⟩)
        · exact Or.inl (Or.inl hc)
        · exact Or.inl (Or.inr rfl)
        · exact Or.inr rfl
    · rw [engineer_ideology_of_not_mem h]
      constructor
      · exact Or.inl
      · rintro (hc | ⟨hP, -⟩)
        · exact hc
        · exact absurd hP h

/-- Concrete table for C10: no P5328 column. -/
def t10a : SurveyTable :=
  { columns := ["WEIGHT", "P6933"], rows := [mkRow 1 "P6933" (Value.num 1)] }

/-- Concrete table for C10: P5328 present. -/
def t10b : SurveyTable :=
  { columns := ["WEIGHT", "P5328"], rows := [mkRow 1 "P5328" (Value.num 4)] }

/-- Witness for C10 at concrete tables. -/
theorem engineer_ideology_frame_witness :
    engineer_ideology t10a = t10a
    ∧ ((engineer_ideology t10b).rows.map fun r => r.cells "P5328")
        = t10b.rows.map fun r => r.cells "P5328" :=
  ⟨(engineer_ideology_frame t10a).1 (by decide),
   (engineer_ideology_frame t10b).2.1 "P5328" (by decide) (by decide)⟩

/-! ### Weighted percentage and weighted mean -/

/-- Concrete table of the spec scenario for C7:
[(WEIGHT=2, P6933=1), (WEIGHT=3, P6933=2), (WEIGHT=5, P6933=99)]. -/
def t7 : SurveyTable :=
  { columns := ["WEIGHT", "P6933"],
    rows := [mkRow 2 "P6933" (Value.num 1), mkRow 3 "P6933" (Value.num 2),
             mkRow 5 "P6933" (Value.num 99)] }

/-- C7 -- With non-negative weights the weighted percentage lies in
[0, 100]; when the variable is present and the total weight is non-zero it
equals 100 x (weight where the variable matches) / (total weight); and on
the concrete spec table the percentage of P6933 = 1 is exactly 20. -/
theorem weighted_percentage_formula :
    (∀ (df : SurveyTable) (var : String) (valor_si : Rat),
        (∀ r ∈ df.rows, 0 ≤ r.weight) →
        0 ≤ porcentaje_ponderado df var valor_si ∧ porcentaje_ponderado df var valor_si ≤ 100)
    ∧ (∀ (df : SurveyTable) (var : String) (valor_si : Rat),
        var ∈ df.columns → totalWeight df ≠ 0 →
        porcentaje_ponderado df var valor_si = 100 * yesWeight df var valor_si / totalWeight df)
    ∧ porcentaje_ponderado t7 "P6933" 1 = 20 := by
  refine ⟨?_, ?_, ?_⟩
  · intro df var v hw
    by_cases hc : var ∈ df.columns
    · by_cases ht : totalWeight df = 0
      · simp [porcentaje_ponderado, hc, ht]
      · have hy0 : 0 ≤ yesWeight df var v :=
          sum_map_nonneg fun r hr => hw r (List.mem_of_mem_filter hr)
        have ht0 : 0 ≤ totalWeight df := sum_map_nonneg fun r hr => hw r hr
        have htpos : 0 < totalWeight df := lt_of_le_of_ne ht0 (Ne.symm ht)
        have hyt : yesWeight df var v ≤ totalWeight df :=
          sum_filter_le_sum _ fun r hr => hw r hr
        have hval : porcentaje_ponderado df var v
            = 100 * yesWeight df var v / totalWeight df := by
          simp [porcentaje_ponderado, hc, ht]
        rw [hval]
        constructor
        · exact div_nonneg (by linarith) (by linarith)
        · rw [div_le_iff₀ htpos]
          linarith
    · simp [porcentaje_ponderado, hc]
  · intro df var v hc ht
    simp [porcentaje_ponderado, hc, ht]
  · norm_num [porcentaje_ponderado, yesWeight, totalWeight, t7, mkRow, List.filter]

/-- Witness for C7 at the concrete spec table. -/
theorem weighted_percentage_formula_witness :
    (0 ≤ porcentaje_ponderado t7 "P6933" 1 ∧ porcentaje_ponderado t7 "P6933" 1 ≤ 100)
    ∧ porcentaje_ponderado t7 "P6933" 1 = 100 * yesWeight t7 "P6933" 1 / totalWeight t7 :=
  ⟨weighted_percentage_formula.1 t7 "P6933" 1
      (by
        intro r hr
        simp [t7, mkRow] at hr
        rcases hr with rfl | rfl | rfl <;> norm_num [mkRow]),
   weighted_percentage_formula.2.1 t7 "P6933" 1 (by decide)
      (by norm_num [totalWeight, t7, mkRow])⟩

/-- Concrete table for C8: only a WEIGHT column. -/
def t8 : SurveyTable :=
  { columns := ["WEIGHT"], rows := [mkEmptyRow 1] }

/-- C8 -- For every table and every variable not among its columns, both
the weighted percentage and the weighted mean return exactly 0 (the
explicit guards at app.py lines 28-29 and 40-41), with no error raised. -/
theorem absent_variable_returns_zero (df : SurveyTable) (var : String) (valor_si : Rat)
    (h : var ∉ df.columns) :
    porcentaje_ponderado df var valor_si = 0 ∧ weighted_mean df var = 0 := by
  constructor
  · simp [porcentaje_ponderado, h]
  · simp [weighted_mean, h]

/-- Witness for C8 at a concrete table missing the variable. -/
theorem absent_variable_returns_zero_witness :
    porcentaje_ponderado t8 "P6933" 1 = 0 ∧ weighted_mean t8 "P6933" = 0 :=
  absent_variable_returns_zero t8 "P6933" 1 (by decide)

theorem betweenB_bounds {v : Option Value} (h : betweenB v 1 5 = true) :
    1 ≤ numOrZero v ∧ numOrZero v ≤ 5 := by
  match v with
  | some (Value.num q) =>
      simp only [betweenB, Bool.and_eq_true, decide_eq_true_eq] at h
      exact ⟨h.1, h.2⟩
  | some (Value.cat s) => simp [betweenB] at h
  | none => simp [betweenB] at h

/-- Concrete table of the spec scenario for C6: one record value 99 with
weight 1000, one record value 3 with weight 1. -/
def t6 : SurveyTable :=
  { columns := ["WEIGHT", "P5321S1"],
    rows := [mkRow 1000 "P5321S1" (Value.num 99), mkRow 1 "P5321S1" (Value.num 3)] }

/-- C6 -- The weighted mean restricts to records with value in [1, 5]: a
record failing that test does not influence the result at all (prepending
it changes nothing); with non-negative weights and at least one valid
positively-weighted observation the result lies in [1, 5]; and on the
concrete spec table (value 99 weight 1000, value 3 weight 1) it is
exactly 3. -/
theorem weighted_mean_domain_restriction :
    (∀ (df : SurveyTable) (var : String) (r : Record),
        betweenB (r.cells var) 1 5 = false →
        weighted_mean { df with rows := r :: df.rows } var = weighted_mean df var)
    ∧ (∀ (df : SurveyTable) (var : String),
        var ∈ df.columns →
        (∀ r ∈ df.rows, 0 ≤ r.weight) →
        (∃ r ∈ df.rows, betweenB (r.cells var) 1 5 = true ∧ 0 < r.weight) →
        1 ≤ weighted_mean df var ∧ weighted_mean df var ≤ 5)
    ∧ weighted_mean t6 "P5321S1" = 3 := by
  refine ⟨?_, ?_, ?_⟩
  · intro df var r h
    by_cases hc : var ∈ df.columns
    · simp [weighted_mean, hc, List.filter_cons, h]
    · simp [weighted_mean, hc]
  · rintro df var hc hw ⟨r0, hr0, hb0, hw0⟩
    have hr0v : r0 ∈ df.rows.filter fun r => betweenB (r.cells var) 1 5 :=
      List.mem_filter.mpr ⟨hr0, hb0⟩
    have hWpos :
        0 < ((df.rows.filter fun r => betweenB (r.cells var) 1 5).map Record.weight).sum :=
      lt_of_lt_of_le hw0
        (mem_le_sum_map (fun a ha => hw a (List.mem_of_mem_filter ha)) hr0v)
    have hWne :
        ¬((df.rows.filter fun r => betweenB (r.cells var) 1 5).map Record.weight).sum = 0 :=
      ne_of_gt hWpos
    have hlow :
        ((df.rows.filter fun r => betweenB (r.cells var) 1 5).map Record.weight).sum
          ≤ ((df.rows.filter fun r => betweenB (r.cells var) 1 5).map
              fun r => numOrZero (r.cells var) * r.weight).sum := by
      apply sum_le_sum_map
      intro a ha
      have hb := betweenB_bounds (List.mem_filter.mp ha).2
      have hwa := hw a (List.mem_of_mem_filter ha)
      nlinarith [hb.1]
    have hhigh :
        ((df.rows.filter fun r => betweenB (r.cells var) 1 5).map
            fun r => numOrZero (r.cells var) * r.weight).sum
          ≤ ((df.rows.filter fun r => betweenB (r.cells var) 1 5).map Record.weight).sum * 5 := by
      rw [← sum_map_mul_right]
      apply sum_le_sum_map
      intro a ha
      have hb := betweenB_bounds (List.mem_filter.mp ha).2
      have hwa := hw a (List.mem_of_mem_filter ha)
      nlinarith [hb.2]
    have hval :
        weighted_mean df var
          = ((df.rows.filter fun r => betweenB (r.cells var) 1 5).map
              fun r => numOrZero (r.cells var) * r.weight).sum
            / ((df.rows.filter fun r => betweenB (r.cells var) 1 5).map Record.weight).sum := by
      simp [weighted_mean, hc, hWne]
    rw [hval]
    constructor
    · rw [le_div_iff₀ hWpos]
      linarith
    · rw [div_le_iff₀ hWpos]
      linarith
  · norm_num [weighted_mean, t6, mkRow, betweenB, numOrZero, List.filter_cons,
      Bool.and_eq_true, decide_eq_true_eq]

/-- Witness for C6: the invariance part at a concrete out-of-range record
and the bounds part at the concrete spec table. -/
theorem weighted_mean_domain_restriction_witness :
    weighted_mean { t6 with rows := mkRow 7 "P5321S1" (Value.num 42) :: t6.rows } "P5321S1"
        = weighted_mean t6 "P5321S1"
    ∧ (1 ≤ weighted_mean t6 "P5321S1" ∧ weighted_mean t6 "P5321S1" ≤ 5) :=
  ⟨weighted_mean_domain_restriction.1 t6 "P5321S1" (mkRow 7 "P5321S1" (Value.num 42))
      (by norm_num [mkRow, betweenB]),
   weighted_mean_domain_restriction.2.1 t6 "P5321S1" (by decide)
      (by
        intro r hr
        simp [t6, mkRow] at hr
        rcases hr with rfl | rfl <;> norm_num [mkRow])
      ⟨mkRow 1 "P5321S1" (Value.num 3),
        by simp [t6],
        by norm_num [mkRow, betweenB], by norm_num [mkRow]⟩⟩

/-! ### Grouped indicator percentages -/

/-- The grouped numerator exchanged into a per-record form: each record
contributes its weight once per member indicator that is present and set. -/
theorem grouped_core (df : SurveyTable) (codes : List String) :
    ((codes.filter fun c => c ∈ df.columns).map (indWeight df)).sum
      = (df.rows.map fun r =>
          r.weight * ((codes.countP fun c =>
              decide (c ∈ df.columns) && decide (r.cells c = some (Value.num 1)) : Nat) : Rat)).sum := by
  rw [← sum_sum_swap df.rows Record.weight codes
      (fun c r => decide (c ∈ df.columns) && decide (r.cells c = some (Value.num 1)))]
  rw [sum_filter_eq_sum_ite]
  refine congrArg List.sum (map_congr_mem ?_)
  intro c _
  by_cases hcol : c ∈ df.columns
  · have hfc : (df.rows.filter fun r =>
        decide (c ∈ df.columns) && decide (r.cells c = some (Value.num 1)))
        = df.rows.filter fun r => decide (r.cells c = some (Value.num 1)) := by
      apply List.filter_congr
      intro r _
      simp [hcol]
    rw [hfc]
    simp only [decide_eq_true_eq]
    rw [if_pos hcol]
    rfl
  · have hfc : (df.rows.filter fun r =>
        decide (c ∈ df.columns) && decide (r.cells c = some (Value.num 1)))
        = df.rows.filter fun _ => false := by
      apply List.filter_congr
      intro r _
      simp [hcol]
    rw [hfc]
    simp [hcol]

/-- Concrete table for C1: one record of weight 1 with the two indicator
columns A and B both equal to 1. -/
def t1 : SurveyTable :=
  { columns := ["WEIGHT", "A", "B"],
    rows := [{ weight := 1,
               cells := fun c =>
                 if c = "A" then some (Value.num 1)
                 else if c = "B" then some (Value.num 1) else none }] }

/-- C1 (counterexample) -- On a table of total weight 1 whose single
record has both indicators of the group set, `plot_grouped_reasons`
reports 200 percent: the record contributes its weight once per set
indicator (not once per record), and the percentage exceeds 100 even
though all weights are non-negative. -/
theorem grouped_indicator_double_counts :
    plot_grouped_reasons t1 [("G", ["A", "B"])] = [("G", 200)]
    ∧ (200 : Rat) ≠ 100 ∧ ¬((200 : Rat) ≤ 100) := by
  refine ⟨?_, by norm_num, by norm_num⟩
  norm_num [plot_grouped_reasons, groupedPct, totalWeight, indWeight, yesWeight, t1,
    List.filter_cons]

/-- C1 (amended) -- For every table and every group of the group spec,
the grouped percentage equals 100 times the sum over records of
(weight x number of member indicators that are present in the table and
equal to 1), divided by the total table weight (0 when that total is 0):
a record with k set indicators in one group contributes its weight k
times, so the percentage can exceed 100. -/
theorem grouped_indicator_multiplicity (df : SurveyTable)
    (group_map : List (String × List String)) :
    plot_grouped_reasons df group_map
      = group_map.map fun p =>
          (p.1,
            if totalWeight df = 0 then 0
            else 100 * ((df.rows.map fun r =>
                r.weight * ((p.2.countP fun c =>
                    decide (c ∈ df.columns) && decide (r.cells c = some (Value.num 1)) : Nat) : Rat)).sum)
              / totalWeight df) := by
  unfold plot_grouped_reasons
  apply map_congr_mem
  intro p _
  have hcore : groupedPct df p.2
      = if totalWeight df = 0 then 0
        else 100 * ((df.rows.map fun r =>
            r.weight * ((p.2.countP fun c =>
                decide (c ∈ df.columns) && decide (r.cells c = some (Value.num 1)) : Nat) : Rat)).sum)
          / totalWeight df := by
    unfold groupedPct
    rw [grouped_core]
  rw [hcore]

/-! ### Weighted category distribution -/

theorem none_ne_someV (v : Value) : ((none : Option Value) = some v) = False := by simp

/-- Modelled from the amended claim for comparison with the code: the
summed weight of the records whose value at `var` is non-missing. -/
def nonMissingWeight (df : SurveyTable) (var : String) : Rat :=
  ((df.rows.filter fun r => (r.cells var).isSome).map Record.weight).sum

/-- The denominator actually used by `plot_weighted_bar` is the weight of
the non-missing records, not of the whole table. -/
theorem wbTotal_eq_nonMissingWeight (df : SurveyTable) (var : String) :
    wbTotal df var = nonMissingWeight df var := by
  unfold wbTotal groupWeight nonMissingWeight
  rw [sum_sum_swap df.rows Record.weight (presentValues df var)
      (fun c r => decide (r.cells var = some c))]
  rw [sum_filter_eq_sum_ite]
  refine congrArg List.sum (map_congr_mem ?_)
  intro r hr
  match hv : r.cells var with
  | some v =>
      have hmem : v ∈ presentValues df var := by
        unfold presentValues
        rw [List.mem_dedup]
        exact List.mem_filterMap.mpr ⟨r, hr, hv⟩
      have hcount : ((presentValues df var).countP fun c => decide (v = c)) = 1 :=
        countP_eq_one_of_nodup (List.nodup_dedup _) hmem
      simp [hv, hcount]
  | none =>
      have hcount : ((presentValues df var).countP fun c => decide (r.cells var = some c)) = 0 := by
        rw [List.countP_eq_zero]
        intro c _
        simp [hv]
      simp [hv, hcount]

/-- Display labels used in the concrete participation scenario. -/
def labels29 : Value → Option String :=
  fun v => if v = Value.num 1 then some "Sí votó" else none

/-- Concrete table for C2: one record with P6933 = 1 and weight 1, one
record of weight 1 whose P6933 is missing. -/
def t2c : SurveyTable :=
  { columns := ["WEIGHT", "P6933"],
    rows := [mkRow 1 "P6933" (Value.num 1), mkEmptyRow 1] }

/-- C2 (counterexample) -- On a table whose whole-table weight is 2 but
where one record has a missing value, `plot_weighted_bar` reports 100
percent for the present code: the missing-value record is dropped from
the denominator, while the claim (denominator = whole table including
missing) predicts 100 x 1 / 2 = 50. -/
theorem category_distribution_denominator_excludes_missing :
    plot_weighted_bar t2c "P6933" labels29 = [(some "Sí votó", some 100)]
    ∧ totalWeight t2c = 2
    ∧ (100 : Rat) ≠ 100 * 1 / 2 := by
  refine ⟨?_, ?_, by norm_num⟩
  · norm_num [plot_weighted_bar, presentValues, groupWeight, wbTotal, floatDiv, t2c, mkRow,
      mkEmptyRow, labels29, List.filter_cons, List.filterMap_cons, List.dedup_cons_of_not_mem,
      none_ne_someV]
  · norm_num [totalWeight, t2c, mkRow, mkEmptyRow]

/-- C2 (amended) -- The distribution divides the summed weight of each
present raw value by the total weight of the records whose value is
non-missing (unlabeled codes still count toward the denominator, missing
values do not), and when that denominator is non-zero the percentages
across all present raw codes sum exactly to 100. -/
theorem category_distribution_sums_to_100 (df : SurveyTable) (var : String)
    (labels : Value → Option String) (_hc : var ∈ df.columns) (ht : wbTotal df var ≠ 0) :
    wbTotal df var = nonMissingWeight df var
    ∧ (plot_weighted_bar df var labels).map Prod.snd
        = ((presentValues df var).map fun c => some (groupWeight df var c / wbTotal df var * 100))
    ∧ (((presentValues df var).map fun c => groupWeight df var c / wbTotal df var * 100).sum
        = 100) := by
  refine ⟨wbTotal_eq_nonMissingWeight df var, ?_, ?_⟩
  · unfold plot_weighted_bar floatDiv
    rw [List.map_map]
    apply map_congr_mem
    intro c _
    simp [ht]
  · have hterm : ∀ c, groupWeight df var c / wbTotal df var * 100
        = groupWeight df var c * (100 / wbTotal df var) := by
      intro c
      rw [div_mul_eq_mul_div, mul_div_assoc]
    calc ((presentValues df var).map fun c => groupWeight df var c / wbTotal df var * 100).sum
        = ((presentValues df var).map fun c =>
            groupWeight df var c * (100 / wbTotal df var)).sum :=
          congrArg List.sum (map_congr_mem fun c _ => hterm c)
      _ = ((presentValues df var).map (groupWeight df var)).sum * (100 / wbTotal df var) :=
          sum_map_mul_right _ _ _
      _ = wbTotal df var * (100 / wbTotal df var) := rfl
      _ = 100 := by
          rw [mul_comm, div_mul_cancel₀ _ ht]

/-- Concrete table for the C2 witness: a single record with P6933 = 1 and
weight 1. -/
def t2w : SurveyTable :=
  { columns := ["WEIGHT", "P6933"], rows := [mkRow 1 "P6933" (Value.num 1)] }

/-- Witness for C2 at a concrete table with non-zero denominator. -/
theorem category_distribution_sums_to_100_witness :
    wbTotal t2w "P6933" = nonMissingWeight t2w "P6933"
    ∧ (plot_weighted_bar t2w "P6933" labels29).map Prod.snd
        = ((presentValues t2w "P6933").map fun c =>
            some (groupWeight t2w "P6933" c / wbTotal t2w "P6933" * 100))
    ∧ (((presentValues t2w "P6933").map fun c =>
          groupWeight t2w "P6933" c / wbTotal t2w "P6933" * 100).sum = 100) :=
  category_distribution_sums_to_100 t2w "P6933" labels29 (by decide)
    (by
      norm_num [wbTotal, presentValues, groupWeight, t2w, mkRow, List.filter_cons,
        List.filterMap_cons, List.dedup_cons_of_not_mem])

/-! ### Zero total weight (C3) -/

/-- Concrete failing input for C3: a single record of weight 0, so the
total weight of the table is 0. -/
def t3 : SurveyTable :=
  { columns := ["WEIGHT", "P6933"], rows := [mkRow 0 "P6933" (Value.num 1)] }

/-- C3 -- On a table whose total weight is 0, the weighted percentage,
the weighted mean and the grouped indicator all return 0 as claimed, but
the weighted category distribution divides 0 by 0 and produces a
non-finite float (modelled as `none`) instead of the claimed 0.0. -/
theorem zero_total_weight_behaviour :
    totalWeight t3 = 0
    ∧ porcentaje_ponderado t3 "P6933" 1 = 0
    ∧ weighted_mean t3 "P6933" = 0
    ∧ plot_grouped_reasons t3 [("G", ["P6933"])] = [("G", 0)]
    ∧ plot_weighted_bar t3 "P6933" labels29 = [(some "Sí votó", none)] := by
  refine ⟨?_, ?_, ?_, ?_, ?_⟩
  · norm_num [totalWeight, t3, mkRow]
  · norm_num [porcentaje_ponderado, yesWeight, totalWeight, t3, mkRow, List.filter_cons]
  · norm_num [weighted_mean, t3, mkRow, betweenB, numOrZero, List.filter_cons,
      Bool.and_eq_true, decide_eq_true_eq]
  · norm_num [plot_grouped_reasons, groupedPct, totalWeight, indWeight, yesWeight, t3, mkRow,
      List.filter_cons]
  · norm_num [plot_weighted_bar, presentValues, groupWeight, wbTotal, floatDiv, t3, mkRow,
      labels29, List.filter_cons, List.filterMap_cons, List.dedup_cons_of_not_mem]

/-! ### Ideology bucketing (C4, C5) -/

/-- Concrete table for the C4 counterexample: one record whose ideology
placement is exactly 3.5. -/
def t4c : SurveyTable :=
  { columns := ["WEIGHT", "P5328"], rows := [mkRow 1 "P5328" (Value.num 3.5)] }

/-- C4 (counterexample) -- A placement of exactly 3.5 falls into the
right-closed bin (0, 3.5] and is labelled Izquierda, not Centro as the
claim states. -/
theorem boundary_3_5_maps_to_izquierda :
    ((engineer_ideology t4c).rows.map fun r => r.cells "ideology_group")
      = [some (Value.cat "Izquierda")]
    ∧ Value.cat "Izquierda" ≠ Value.cat "Centro" := by
  constructor
  · norm_num [engineer_ideology, deriveRow, cutIdeology, t4c, mkRow]
  · simp

/-- Concrete table for the amended C4: placements 3.5, 3.5001, 6.5, 7, 11
and a missing placement, one record each. -/
def t4 : SurveyTable :=
  { columns := ["WEIGHT", "P5328"],
    rows := [mkRow 1 "P5328" (Value.num 3.5), mkRow 1 "P5328" (Value.num 3.5001),
             mkRow 1 "P5328" (Value.num 6.5), mkRow 1 "P5328" (Value.num 7),
             mkRow 1 "P5328" (Value.num 11), mkEmptyRow 1] }

/-- C4 (amended) -- The derived grouping maps 3.5 to Izquierda (a value
exactly at a bin boundary falls into the lower of the right-closed bins
(0, 3.5], (3.5, 6.5], (6.5, 10]), 3.5001 to Centro, 6.5 to Centro, 7 to
Derecha, and 11 or a missing placement to an absent group. -/
theorem ideology_bin_boundaries :
    ((engineer_ideology t4).rows.map fun r => r.cells "ideology_group")
      = [some (Value.cat "Izquierda"), some (Value.cat "Centro"), some (Value.cat "Centro"),
         some (Value.cat "Derecha"), none, none] := by
  norm_num [engineer_ideology, deriveRow, cutIdeology, t4, mkRow, mkEmptyRow]

/-- Concrete table for the C5 counterexample: one record whose ideology
placement is 1/2, outside the survey domain [1, 10]. -/
def t5c : SurveyTable :=
  { columns := ["WEIGHT", "P5328"], rows := [mkRow 1 "P5328" (Value.num (1 / 2))] }

/-- C5 (counterexample) -- The placement 1/2 lies outside [1, 10], yet the
derived group is Izquierda (the cut starts at bin edge 0, not 1), so an
out-of-domain value IS assigned to a bucket, contrary to the claim. -/
theorem below_one_maps_to_izquierda :
    ((engineer_ideology t5c).rows.map fun r => r.cells "ideology_group")
      = [some (Value.cat "Izquierda")]
    ∧ ¬((1 : Rat) ≤ 1 / 2) := by
  constructor
  · norm_num [engineer_ideology, deriveRow, cutIdeology, t5c, mkRow]
  · norm_num

/-- C5 (amended) -- In every table containing P5328 the derived group
column is exactly `cutIdeology` of the placement cell, and `cutIdeology`
is absent (`none`) for every numeric placement outside (0, 10] and for
every missing or non-numeric placement; a numeric placement inside (0, 1),
though outside the survey domain [1, 10], is still bucketed. -/
theorem out_of_range_group_absent :
    (∀ df : SurveyTable, "P5328" ∈ df.columns →
        ((engineer_ideology df).rows.map fun r => r.cells "ideology_group")
          = df.rows.map fun r => cutIdeology (r.cells "P5328"))
    ∧ (∀ q : Rat, ¬(0 < q ∧ q ≤ 10) → cutIdeology (some (Value.num q)) = none)
    ∧ (∀ v : Option Value, (∀ q : Rat, v ≠ some (Value.num q)) → cutIdeology v = none) := by
  refine ⟨?_, ?_, ?_⟩
  · intro df h
    rw [engineer_ideology_of_mem h]
    show (df.rows.map deriveRow).map (fun r => r.cells "ideology_group") = _
    rw [List.map_map]
    apply map_congr_mem
    intro r _
    exact deriveRow_cells_group r
  · intro q hq
    have h1 : ¬(0 < q ∧ q ≤ 3.5) := fun h => hq ⟨h.1, le_trans h.2 (by norm_num)⟩
    have h2 : ¬(3.5 < q ∧ q ≤ 6.5) :=
      fun h => hq ⟨lt_trans (by norm_num) h.1, le_trans h.2 (by norm_num)⟩
    have h3 : ¬(6.5 < q ∧ q ≤ 10) := fun h => hq ⟨lt_trans (by norm_num) h.1, h.2⟩
    simp [cutIdeology, h1, h2, h3]
  · intro v hv
    match v with
    | none => rfl
    | some (Value.cat s) => rfl
    | some (Value.num q) => exact absurd rfl (hv q)

/-- Witness for C5: the derived column at a concrete table, an absent
group at placement 11, and an absent group at a non-numeric cell. -/
theorem out_of_range_group_absent_witness :
    (((engineer_ideology t5c).rows.map fun r => r.cells "ideology_group")
        = t5c.rows.map fun r => cutIdeology (r.cells "P5328"))
    ∧ cutIdeology (some (Value.num 11)) = none
    ∧ cutIdeology (some (Value.cat "NS")) = none :=
  ⟨out_of_range_group_absent.1 t5c (by decide),
   out_of_range_group_absent.2.1 11 (by norm_num),
   out_of_range_group_absent.2.2 (some (Value.cat "NS")) (fun q h => by simp at h)⟩

end ECP
